import Mathlib

/-!
Verification development for the RDF/JS query specification
(interfaces `Bindings`, `BindingsFactory`, `Expression`, `FilterableSource`,
`FilterableResult`, and the `QueryableResult` family).

The repository declares TypeScript interfaces together with normative doc
comments; it contains no executable bodies.  The data model below is a
shallow embedding of those declarations, and the behaviour of the declared
operations (binding lookup and merge, quad-pattern matching, result
metadata negotiation) is modelled from the normative text that accompanies
each declaration.  Promises are modelled as resolved/rejected values,
streams as the finite sequence of items they deliver followed by an
optional error event.
-/

namespace RDFJS

/-- An RDF term: the tagged variant over NamedNode, BlankNode, Literal,
Variable and DefaultGraph used throughout the interfaces.  Structural
equality of two terms is equality of variant and lexical content, which is
exactly the derived decidable equality. -/
inductive Term where
  | namedNode (iri : String)
  | blankNode (label : String)
  | literal (value : String) (datatype : String) (language : String)
  | variable (name : String)
  | defaultGraph
deriving DecidableEq, Repr

/-- A quad is an ordered 4-tuple (subject, predicate, object, graph) of
terms, immutable once constructed. -/
structure Quad where
  subject : Term
  predicate : Term
  object : Term
  graph : Term
deriving DecidableEq, Repr

/-- RDF.Variable values carry only a name; structural equality of two
variables is equality of their names, so binding keys are names. -/
abbrev VariableName := String

/-- Map-like representation of Bindings (interface `Bindings`): the
discriminator field `type` is declared with the literal type "bindings",
which is recorded here as the invariant `htype`; the mapping itself is the
entry list, whose keys are unique by structural equality (invariant
`hkeys`). -/
structure Bindings where
  type : String
  entries : List (VariableName × Term)
  htype : type = "bindings"
  hkeys : (entries.map Prod.fst).Nodup

/-- `get(key)` of the `Bindings` interface: the bound term for a bound
variable, or the explicit absent signal (undefined, here `none`) for an
unbound one.  Modelled from the spec: the interface only declares
`get: (key: RDF.Variable) => RDF.Term | undefined`; the Map-like reading
fixed by the surrounding doc comment is lookup by structural key equality. -/
def Bindings.get (b : Bindings) (v : VariableName) : Option Term :=
  (b.entries.find? (fun p => p.fst == v)).map Prod.snd

/-- `has(key)` of the `Bindings` interface: whether the variable is bound. -/
def Bindings.has (b : Bindings) (v : VariableName) : Bool :=
  (b.get v).isSome

/-- `size` of the `Bindings` interface: the number of variables bound. -/
def Bindings.size (b : Bindings) : Nat :=
  b.entries.length

/-- `keys()` of the `Bindings` interface. -/
def Bindings.keysList (b : Bindings) : List VariableName :=
  b.entries.map Prod.fst

namespace BindingsFactory

/-- One pass of key deduplication used by the `bindings(entries)` factory:
keeps the first entry for every variable.  Modelled from the spec: the
factory is only declared; the doc comments require the resulting keys to be
unique by structural equality. -/
def dedupEntries : List (VariableName × Term) → List (VariableName × Term)
  | [] => []
  | (k, t) :: rest => (k, t) :: (dedupEntries rest).filter (fun p => !(p.fst == k))

theorem dedupEntries_keys_nodup (l : List (VariableName × Term)) :
    ((dedupEntries l).map Prod.fst).Nodup := by
  induction l with
  | nil => simp [dedupEntries]
  | cons head tail ih =>
    obtain ⟨k, t⟩ := head
    simp only [dedupEntries, List.map_cons, List.nodup_cons]
    constructor
    · intro hmem
      obtain ⟨p, hp, hpk⟩ := List.mem_map.mp hmem
      have := (List.mem_filter.mp hp).2
      simp [hpk] at this
    · exact ih.sublist ((List.filter_sublist _).map Prod.fst)

/-- `bindings(entries)` of the `BindingsFactory` interface: creates a
Bindings from an entry list.  Modelled from the spec: only the signature is
declared; duplicate keys are collapsed so that keys are unique, keeping the
first occurrence. -/
def bindings (entries : List (VariableName × Term)) : Bindings :=
  { type := "bindings"
    entries := dedupEntries entries
    htype := rfl
    hkeys := dedupEntries_keys_nodup entries }

theorem filter_keys_nodup (b : Bindings) (p : VariableName × Term → Bool) :
    (((b.entries.filter p).map Prod.fst)).Nodup :=
  b.hkeys.sublist ((List.filter_sublist _).map Prod.fst)

/-- `filter(bindings, fn)` of the `BindingsFactory` interface: a new
Bindings holding the entries on which `fn` holds.  Modelled from the spec:
only the signature is declared. -/
def filter (b : Bindings) (fn : Term → VariableName → Bool) : Bindings :=
  { type := "bindings"
    entries := b.entries.filter (fun p => fn p.snd p.fst)
    htype := rfl
    hkeys := filter_keys_nodup b _ }

/-- `map(bindings, fn)` of the `BindingsFactory` interface: a new Bindings
with every bound term transformed by `fn`.  Modelled from the spec: only
the signature is declared. -/
def map (b : Bindings) (fn : Term → VariableName → Term) : Bindings :=
  { type := "bindings"
    entries := b.entries.map (fun p => (p.fst, fn p.snd p.fst))
    htype := rfl
    hkeys := by
      have h : (b.entries.map (fun p => (p.fst, fn p.snd p.fst))).map Prod.fst
          = b.entries.map Prod.fst := by
        simp [List.map_map]
      rw [h]; exact b.hkeys }

/-- Compatibility test behind `merge`: every variable bound in both
operands must be bound to structurally equal terms. -/
def mergeCompatible (left right : Bindings) : Bool :=
  right.entries.all (fun p =>
    match left.get p.fst with
    | some t => t == p.snd
    | none => true)

theorem has_iff_exists (b : Bindings) (v : VariableName) :
    b.has v = true ↔ ∃ t, (v, t) ∈ b.entries := by
  unfold Bindings.has Bindings.get
  rw [Option.isSome_map', List.find?_isSome]
  constructor
  · rintro ⟨p, hp, hpv⟩
    refine ⟨p.snd, ?_⟩
    rw [show v = p.fst from (beq_iff_eq.mp hpv).symm, Prod.mk.eta]
    exact hp
  · rintro ⟨t, ht⟩
    exact ⟨(v, t), ht, by simp⟩

theorem keys_disjoint_filter (left right : Bindings) :
    List.Disjoint (left.entries.map Prod.fst)
      ((right.entries.filter (fun p => !(left.has p.fst))).map Prod.fst) := by
  intro k hkl hkr
  obtain ⟨p, hp, hpk⟩ := List.mem_map.mp hkr
  have hnot := (List.mem_filter.mp hp).2
  obtain ⟨q, hq, hqk⟩ := List.mem_map.mp hkl
  have hhas : left.has p.fst = true := by
    rw [has_iff_exists]
    refine ⟨q.snd, ?_⟩
    rw [hpk, ← hqk, Prod.mk.eta]
    exact hq
  simp [hhas] at hnot

theorem merge_keys_nodup (left right : Bindings) :
    (((left.entries ++ right.entries.filter (fun p => !(left.has p.fst))).map
        Prod.fst)).Nodup := by
  rw [List.map_append]
  exact List.Nodup.append left.hkeys (filter_keys_nodup right _)
    (keys_disjoint_filter left right)

/-- `merge(left, right)` of the `BindingsFactory` interface.  Modelled from
the spec: the repository declares the operation (in one revision as
`merge(bindings: Bindings[]): Bindings|undefined`, with the NOTE that it
returns undefined in case of conflicting bindings, and in the later
revision as the binary `merge(left, right)`) but implements nothing; the
normative text makes merge fail with the explicit absence signal
(undefined, here `none`) when some variable is bound to structurally
different terms in the two operands, and otherwise return the union of the
two binding sets. -/
def merge (left right : Bindings) : Option Bindings :=
  if mergeCompatible left right then
    some
      { type := "bindings"
        entries := left.entries ++ right.entries.filter (fun p => !(left.has p.fst))
        htype := rfl
        hkeys := merge_keys_nodup left right }
  else
    none

/-- `mergeWith(merger, left, right)` of the `BindingsFactory` interface:
like `merge`, but a conflicting variable is resolved by the caller-supplied
combinator instead of failing.  Modelled from the spec: only the signature
is declared. -/
def mergeWith (merger : Term → Term → VariableName → Term)
    (left right : Bindings) : Bindings :=
  { type := "bindings"
    entries :=
      left.entries.map (fun p =>
        match right.get p.fst with
        | some t => (p.fst, merger p.snd t p.fst)
        | none => p)
      ++ right.entries.filter (fun p => !(left.has p.fst))
    htype := rfl
    hkeys := by
      have hmap : (left.entries.map (fun p =>
          match right.get p.fst with
          | some t => (p.fst, merger p.snd t p.fst)
          | none => p)).map Prod.fst = left.entries.map Prod.fst := by
        rw [List.map_map]
        refine List.map_congr_left (fun p _ => ?_)
        simp only [Function.comp_apply]
        cases h : right.get p.fst <;> simp [h]
      rw [List.map_append, hmap]
      exact List.Nodup.append left.hkeys (filter_keys_nodup right _)
        (keys_disjoint_filter left right) }

/-- `set(bindings, key, value)` of the `BindingsFactory` interface: a new
Bindings in which the key is bound to the value.  Modelled from the spec:
only the signature is declared. -/
def set (b : Bindings) (k : VariableName) (v : Term) : Bindings :=
  { type := "bindings"
    entries := (k, v) :: b.entries.filter (fun p => !(p.fst == k))
    htype := rfl
    hkeys := by
      simp only [List.map_cons, List.nodup_cons]
      constructor
      · intro hmem
        obtain ⟨p, hp, hpk⟩ := List.mem_map.mp hmem
        have := (List.mem_filter.mp hp).2
        simp [hpk] at this
      · exact filter_keys_nodup b _ }

/-- `delete(bindings, key)` of the `BindingsFactory` interface: a new
Bindings in which the key is unbound.  Modelled from the spec: only the
signature is declared. -/
def delete (b : Bindings) (k : VariableName) : Bindings :=
  { type := "bindings"
    entries := b.entries.filter (fun p => !(p.fst == k))
    htype := rfl
    hkeys := filter_keys_nodup b _ }

end BindingsFactory

/-- The Expression interface together with its two concrete interfaces
(OperatorExpression applying an operator to sub-expressions, and
TermExpression holding a term), embedded as the closed tagged union they
describe. -/
inductive Expression where
  | operator (op : String) (args : List Expression)
  | term (t : Term)
deriving Repr

/-- The `expressionType` discriminator field: "operator" on an
OperatorExpression and "term" on a TermExpression. -/
def Expression.expressionType : Expression → String
  | .operator _ _ => "operator"
  | .term _ => "term"

/-- `operatorExpression(operator, args)` of the `ExpressionFactory`
interface: builds the operator node without validating operator or arity. -/
def ExpressionFactory.operatorExpression (op : String)
    (args : List Expression) : Expression :=
  .operator op args

/-- `termExpression(term)` of the `ExpressionFactory` interface. -/
def ExpressionFactory.termExpression (t : Term) : Expression :=
  .term t

mutual

/-- Whether every operator occurring in the expression is among the
operators a source implements.  Modelled from the spec: the supported
operator list is source-specific and external to the repository; support of
an expression is support of all its operators. -/
def Expression.supportedBy (ops : List String) : Expression → Bool
  | .term _ => true
  | .operator op args => ops.contains op && Expression.allSupportedBy ops args

/-- Whether every operator of every expression in the list is supported. -/
def Expression.allSupportedBy (ops : List String) : List Expression → Bool
  | [] => true
  | e :: es => Expression.supportedBy ops e && Expression.allSupportedBy ops es

end

/-- Evaluation of a leaf expression to a term under a variable assignment:
a Variable term is instantiated to the term bound for its name (the
variable-binding rule of the spec); any other term denotes itself.
Modelled from the spec. -/
def Expression.evalTerm (assignment : VariableName → Option Term) :
    Expression → Option Term
  | .term (Term.variable n) => assignment n
  | .term t => some t
  | .operator _ _ => none

/-- Boolean evaluation of a filter expression under a variable assignment.
Modelled from the spec: the repository leaves the operator list to an
external WebIDL document; the equality operator used by the normative
examples is modelled (structural term equality after variable
instantiation), any other shape evaluates to no value. -/
def Expression.evalBool (assignment : VariableName → Option Term) :
    Expression → Option Bool
  | .operator "=" [a, b] =>
      match a.evalTerm assignment, b.evalTerm assignment with
      | some ta, some tb => some (ta == tb)
      | _, _ => none
  | _ => none

/-- The pull stream delivering a result: the finite sequence of items it
emits, followed by an optional terminating error event. -/
structure ResultStream (α : Type) where
  items : List α
  error : Option String

/-- The `opts` parameter of `matchExpression`: optional limit and offset
bounding and paginating the stream. -/
structure MatchOptions where
  limit : Option Nat := none
  offset : Option Nat := none

/-- A FilterableSource: an object holding (or generating) quads that
answers `matchExpression` calls.  Modelled from the spec: the interface is
only declared, so the model carries the contained quads and the
capabilities the normative text refers to — which expression operators the
source implements, whether it can count results exactly, and the advisory
cardinality estimate it reports otherwise. -/
structure FilterableSource where
  quads : List Quad
  supportedOperators : List String
  exactCardinalitySupported : Bool
  cardinalityEstimate : Nat

/-- Whether a single pattern position accepts a quad term: an absent
parameter or a Variable is a wildcard; a NamedNode, Literal, BlankNode or
DefaultGraph parameter must be structurally equal to the quad term in that
position. -/
def termMatches : Option Term → Term → Bool
  | none, _ => true
  | some (Term.variable _), _ => true
  | some p, t => p == t

/-- The four pattern positions of a match call paired with the terms of a
candidate quad. -/
def patternTerms (s p o g : Option Term) (q : Quad) :
    List (Option Term × Term) :=
  [(s, q.subject), (p, q.predicate), (o, q.object), (g, q.graph)]

/-- Adds the binding of a variable name to a term into an accumulated
binding list: consistent with an existing binding it leaves the list
unchanged, in conflict with one it fails, otherwise it binds the name. -/
def addBinding (bs : List (VariableName × Term)) (n : VariableName)
    (t : Term) : Option (List (VariableName × Term)) :=
  match bs.find? (fun p => p.fst == n) with
  | some p => if p.snd == t then some bs else none
  | none => some ((n, t) :: bs)

/-- Collects the variable bindings induced by the pattern positions on a
candidate quad: a position holding a Variable binds its name to the quad
term at that position; if the same name would be bound to two structurally
different terms the collection fails, which enforces the rule that equal
variable names in several positions constrain those positions to be equal. -/
def collectVarBindings :
    List (Option Term × Term) → Option (List (VariableName × Term))
  | [] => some []
  | (some (Term.variable n), t) :: rest =>
    (collectVarBindings rest).bind (fun bs => addBinding bs n t)
  | (_, _) :: rest => collectVarBindings rest

/-- Whether a quad matches the four pattern positions, including the
equal-variable-name constraint. -/
def quadMatchesPattern (s p o g : Option Term) (q : Quad) : Bool :=
  termMatches s q.subject && termMatches p q.predicate &&
  termMatches o q.object && termMatches g q.graph &&
  (collectVarBindings (patternTerms s p o g q)).isSome

/-- The variable assignment a matching quad induces, used to instantiate
variables inside the filter expression (the variable-binding rule). -/
def patternAssignment (s p o g : Option Term) (q : Quad)
    (n : VariableName) : Option Term :=
  match collectVarBindings (patternTerms s p o g q) with
  | some bs => (bs.find? (fun p => p.fst == n)).map Prod.snd
  | none => none

/-- A FilterableResult: the lazy handle produced by
`FilterableSource.matchExpression`, remembering the source and the
arguments of the call; all matching work is deferred to `execute` and
`metadata`. -/
structure FilterableResult where
  source : FilterableSource
  subject : Option Term
  predicate : Option Term
  object : Option Term
  graph : Option Term
  expression : Option Expression
  opts : MatchOptions

/-- `matchExpression(subject?, predicate?, obj?, graph?, expression?,
opts?)` of the `FilterableSource` interface: returns the FilterableResult
synchronously, deferring all matching work.  Every parameter is optional. -/
def FilterableSource.matchExpression (src : FilterableSource)
    (subject : Option Term := none) (predicate : Option Term := none)
    (obj : Option Term := none) (graph : Option Term := none)
    (expression : Option Expression := none)
    (opts : MatchOptions := {}) : FilterableResult :=
  { source := src, subject := subject, predicate := predicate,
    object := obj, graph := graph, expression := expression, opts := opts }

/-- `isSupported()` of the `FilterableResult` interface (the resolved value
of the promise).  Modelled from the spec: an absent expression is always
supported; a present expression is supported when the source implements
all its operators. -/
def FilterableResult.isSupported (r : FilterableResult) : Bool :=
  match r.expression with
  | none => true
  | some e => e.supportedBy r.source.supportedOperators

/-- The quads the match call denotes: the source quads surviving the
pattern, then the expression filter (absent expression applies no filter),
then offset, then limit — offset applied before limit.  Modelled from the
spec. -/
def FilterableResult.matchedQuads (r : FilterableResult) : List Quad :=
  let base := r.source.quads.filter
    (quadMatchesPattern r.subject r.predicate r.object r.graph)
  let filtered := match r.expression with
    | none => base
    | some e => base.filter (fun q =>
        e.evalBool (patternAssignment r.subject r.predicate r.object r.graph q)
          == some true)
  let afterOffset := match r.opts.offset with
    | none => filtered
    | some k => filtered.drop k
  match r.opts.limit with
  | none => afterOffset
  | some k => afterOffset.take k

/-- `execute()` of the `FilterableResult` interface, as the stream it
yields.  Modelled from the spec: when the expression is unsupported the
stream MUST emit an error, delivering no data item; otherwise it delivers
the matching quads. -/
def FilterableResult.execute (r : FilterableResult) : ResultStream Quad :=
  if r.isSupported then
    { items := r.matchedQuads, error := none }
  else
    { items := [], error := some "unsupported expression" }

/-- The `type` discriminator of `FilterableResultMetadataCardinality`: the
counting was either an estimate or exact. -/
inductive CardinalityType where
  | estimate
  | exact
deriving DecidableEq, Repr

/-- `FilterableResultMetadataCardinality`: the kind of counting that was
done and the (estimated or exact) number of quads in the stream. -/
structure FilterableResultMetadataCardinality where
  type : CardinalityType
  value : Nat
deriving DecidableEq, Repr

/-- The helper union TermName of the four quad positions. -/
inductive TermName where
  | subject
  | predicate
  | object
  | graph
deriving DecidableEq, Repr

/-- The direction of one ordering term: "asc" or "desc". -/
inductive SortDirection where
  | asc
  | desc
deriving DecidableEq, Repr

/-- `QueryOperationCost`: the structured cost estimate of a query
operation. -/
structure QueryOperationCost where
  iterations : Nat
  persistedItems : Nat
  blockingItems : Nat
  requestTime : Nat

/-- One element of the `terms` list of a QueryOperationOrder. -/
structure QueryOperationOrderTerm (T : Type) where
  term : T
  direction : SortDirection

/-- `QueryOperationOrder`: an ordering of the results of a query operation,
over quad positions (Filterable) or variables (Queryable). -/
structure QueryOperationOrder (T : Type) where
  cost : QueryOperationCost
  terms : List (QueryOperationOrderTerm T)

/-- `FilterableResultMetadata`: optional cardinality metadata and optional
available orderings for the result stream. -/
structure FilterableResultMetadata where
  cardinality : Option FilterableResultMetadataCardinality
  availableOrders : Option (List (QueryOperationOrder TermName))

/-- `FilterableResultMetadataOptions`: the caller states which type of
cardinality metadata it desires; if defined, the type in the returned
cardinality MUST correspond to it. -/
structure FilterableResultMetadataOptions where
  cardinality : Option CardinalityType := none

/-- `metadata(opts?)` of the `FilterableResult` interface, as the
resolved/rejected outcome of the promise.  Modelled from the spec: it MUST
reject when the expression is unsupported; a request for exact cardinality
on a source that can only estimate MUST reject rather than downgrade to an
estimate; otherwise the returned cardinality carries exactly the requested
type, and no unrequested field is computed. -/
def FilterableResult.metadata (r : FilterableResult)
    (opts : FilterableResultMetadataOptions) :
    Except String FilterableResultMetadata :=
  if r.isSupported then
    match opts.cardinality with
    | some CardinalityType.exact =>
      if r.source.exactCardinalitySupported then
        Except.ok
          { cardinality := some ⟨CardinalityType.exact, r.matchedQuads.length⟩
            availableOrders := none }
      else
        Except.error "exact cardinality is not supported by this source"
    | some CardinalityType.estimate =>
      Except.ok
        { cardinality := some ⟨CardinalityType.estimate, r.source.cardinalityEstimate⟩
          availableOrders := none }
    | none =>
      Except.ok { cardinality := none, availableOrders := none }
  else
    Except.error "unsupported expression"

/-- A promise outcome: resolved with a value, or rejected with a reason. -/
inductive Promise (α : Type) where
  | resolved (value : α)
  | rejected (reason : String)

/-- The `opts` parameter of the queryable `metadata` methods is an open
string-keyed bag; its values are opaque here. -/
abbrev QueryableMetadataOpts := List (String × String)

/-- `QueryableResultMetadata`: optional cardinality and optional available
orderings, generic in the type of order items (quad positions or
variables). -/
structure QueryableResultMetadata (T : Type) where
  cardinality : Option Nat
  availableOrders : Option (List (QueryOperationOrder T))

/-- The `QueryableResultBindings` interface: the discriminator `type` with
literal type "bindings", the bindings-stream `execute`, the `variables`
list (named `variableList` here because `variables` is reserved) and the
`metadata` method. -/
structure QueryableResultBindings where
  type : String
  execute : Option (QueryOperationOrder VariableName) →
    Promise (ResultStream Bindings)
  variableList : List VariableName
  metadata : QueryableMetadataOpts →
    Promise (QueryableResultMetadata VariableName)
  htype : type = "bindings"

/-- The `QueryableResultQuads` interface: the discriminator `type` with
literal type "quads", the quad-stream `execute` and the `metadata`
method. -/
structure QueryableResultQuads where
  type : String
  execute : Option (QueryOperationOrder TermName) →
    Promise (ResultStream Quad)
  metadata : QueryableMetadataOpts → Promise (QueryableResultMetadata TermName)
  htype : type = "quads"

/-- The `QueryableResultBoolean` interface: the discriminator `type` with
literal type "boolean" and the boolean `execute`; the interface declares no
further member. -/
structure QueryableResultBoolean where
  type : String
  execute : Unit → Promise Bool
  htype : type = "boolean"

/-- The `QueryableResultVoid` interface: the discriminator `type` with
literal type "void" and the void `execute`; the interface declares no
further member. -/
structure QueryableResultVoid where
  type : String
  execute : Unit → Promise Unit
  htype : type = "void"

/-- The union type `QueryableResult` of the four result kinds. -/
inductive QueryableResult where
  | bindings (r : QueryableResultBindings)
  | quads (r : QueryableResultQuads)
  | boolean (r : QueryableResultBoolean)
  | void (r : QueryableResultVoid)

/-- The discriminator of a result in the union. -/
def QueryableResult.type : QueryableResult → String
  | .bindings r => r.type
  | .quads r => r.type
  | .boolean r => r.type
  | .void r => r.type

/-- The `metadata` member of a result in the union, when its interface
declares one: the bindings and quads interfaces carry a `metadata` field
(ordered by variables and by quad positions respectively); the boolean and
void interfaces declare no `metadata` member, so there is nothing to
project. -/
def QueryableResult.metadataMethod : QueryableResult →
    Option (Sum
      (QueryableMetadataOpts → Promise (QueryableResultMetadata VariableName))
      (QueryableMetadataOpts → Promise (QueryableResultMetadata TermName)))
  | .bindings r => some (Sum.inl r.metadata)
  | .quads r => some (Sum.inr r.metadata)
  | .boolean _ => none
  | .void _ => none

/-!
Concrete values used to instantiate the theorems below.
-/

/-- A bindings value holding the single entry x bound to the IRI a. -/
def exXtoA : Bindings :=
  { type := "bindings", entries := [("x", Term.namedNode "a")],
    htype := rfl, hkeys := by simp }

/-- A bindings value holding the single entry x bound to the IRI b. -/
def exXtoB : Bindings :=
  { type := "bindings", entries := [("x", Term.namedNode "b")],
    htype := rfl, hkeys := by simp }

/-- A bindings value holding the single entry y bound to the IRI b. -/
def exYtoB : Bindings :=
  { type := "bindings", entries := [("y", Term.namedNode "b")],
    htype := rfl, hkeys := by simp }

/-- The bindings value that merging `exXtoA` with itself denotes. -/
def exXtoAMerged : Bindings :=
  { type := "bindings", entries := [("x", Term.namedNode "a")],
    htype := rfl, hkeys := by simp }

/-- A quad in the default graph. -/
def exQuadDefault : Quad :=
  { subject := Term.namedNode "a", predicate := Term.namedNode "knows",
    object := Term.namedNode "b", graph := Term.defaultGraph }

/-- A quad in a named graph. -/
def exQuadNamed : Quad :=
  { subject := Term.namedNode "b", predicate := Term.namedNode "knows",
    object := Term.namedNode "c", graph := Term.namedNode "g" }

/-- A quad whose subject and object are the same term. -/
def exQuadSelf : Quad :=
  { subject := Term.namedNode "a", predicate := Term.namedNode "knows",
    object := Term.namedNode "a", graph := Term.defaultGraph }

/-- A source that supports no expression operator and can only estimate
cardinality. -/
def exSource : FilterableSource :=
  { quads := [exQuadDefault, exQuadNamed, exQuadSelf],
    supportedOperators := [],
    exactCardinalitySupported := false,
    cardinalityEstimate := 3 }

/-- A match call on `exSource` whose expression uses an operator the
source does not support. -/
def exUnsupportedResult : FilterableResult :=
  exSource.matchExpression none none none none
    (some (ExpressionFactory.operatorExpression "regex" [])) {}

/-- A concrete void result: the type tag and an execute member are its
only members. -/
def exVoidResult : QueryableResultVoid :=
  { type := "void", execute := fun _ => Promise.resolved (), htype := rfl }

/-!
Helper lemmas about binding lookup, merge and pattern matching.
-/

theorem find?_key_of_mem {l : List (VariableName × Term)}
    (hnd : (l.map Prod.fst).Nodup) {k : VariableName} {t : Term}
    (hmem : (k, t) ∈ l) :
    l.find? (fun p => p.fst == k) = some (k, t) := by
  induction l with
  | nil => cases hmem
  | cons head rest ih =>
    rw [List.map_cons, List.nodup_cons] at hnd
    rcases List.mem_cons.mp hmem with heq | hrest
    · rw [← heq, List.find?_cons]
      simp
    · cases hk : head.fst == k with
      | true =>
        exfalso
        refine hnd.1 ?_
        rw [beq_iff_eq.mp hk]
        exact List.mem_map.mpr ⟨(k, t), hrest, rfl⟩
      | false =>
        rw [List.find?_cons]
        simp only [hk]
        exact ih hnd.2 hrest

theorem Bindings.get_eq_some_iff (b : Bindings) (v : VariableName) (t : Term) :
    b.get v = some t ↔ (v, t) ∈ b.entries := by
  constructor
  · intro h
    unfold Bindings.get at h
    obtain ⟨p, hfind, hsnd⟩ := Option.map_eq_some'.mp h
    have hpred := List.find?_some hfind
    have hpv : p.fst = v := beq_iff_eq.mp (by simpa using hpred)
    have hmem := List.mem_of_find?_eq_some hfind
    rw [← hpv, ← hsnd, Prod.mk.eta]
    exact hmem
  · intro hmem
    unfold Bindings.get
    rw [find?_key_of_mem b.hkeys hmem]
    rfl

theorem Bindings.get_eq_none_iff (b : Bindings) (v : VariableName) :
    b.get v = none ↔ ∀ t, (v, t) ∉ b.entries := by
  constructor
  · intro h t hmem
    have := (b.get_eq_some_iff v t).mpr hmem
    rw [h] at this
    cases this
  · intro h
    cases hg : b.get v with
    | none => rfl
    | some t => exact absurd ((b.get_eq_some_iff v t).mp hg) (h t)

theorem find?_filter_of_imp {α : Type} (l : List α) (f q : α → Bool)
    (h : ∀ x, q x = true → f x = true) :
    (l.filter f).find? q = l.find? q := by
  induction l with
  | nil => rfl
  | cons a l ih =>
    cases hq : q a with
    | true =>
      have hf := h a hq
      rw [List.filter_cons, if_pos hf, List.find?_cons_of_pos _ hq,
        List.find?_cons_of_pos _ hq]
    | false =>
      have hq2 : ¬ ((fun x => q x) a = true) := by simp [hq]
      cases hf : f a with
      | true =>
        rw [List.filter_cons, if_pos hf, List.find?_cons_of_neg _ hq2,
          List.find?_cons_of_neg _ hq2]
        exact ih
      | false =>
        rw [List.filter_cons, if_neg (by simp [hf]), List.find?_cons_of_neg _ hq2]
        exact ih

theorem BindingsFactory.mergeCompatible_of_agree {left right : Bindings}
    (h : ∀ v t₁ t₂, left.get v = some t₁ → right.get v = some t₂ → t₁ = t₂) :
    BindingsFactory.mergeCompatible left right = true := by
  unfold BindingsFactory.mergeCompatible
  rw [List.all_eq_true]
  intro p hp
  cases hl : left.get p.fst with
  | none => simp [hl]
  | some t =>
    have hr : right.get p.fst = some p.snd :=
      (right.get_eq_some_iff p.fst p.snd).mpr (by rw [Prod.mk.eta]; exact hp)
    simp only [hl]
    exact beq_iff_eq.mpr (h p.fst t p.snd hl hr)

theorem BindingsFactory.merge_eq_none_of_conflict {left right : Bindings}
    {v : VariableName} {t₁ t₂ : Term}
    (h₁ : left.get v = some t₁) (h₂ : right.get v = some t₂) (hne : t₁ ≠ t₂) :
    BindingsFactory.merge left right = none := by
  have hcomp : ¬ (BindingsFactory.mergeCompatible left right = true) := by
    intro hall
    unfold BindingsFactory.mergeCompatible at hall
    rw [List.all_eq_true] at hall
    have hmem : (v, t₂) ∈ right.entries := (right.get_eq_some_iff v t₂).mp h₂
    have := hall (v, t₂) hmem
    simp only [h₁] at this
    exact hne (beq_iff_eq.mp this)
  unfold BindingsFactory.merge
  rw [if_neg hcomp]

theorem BindingsFactory.merge_entries {left right : Bindings} {m : Bindings}
    (hm : BindingsFactory.merge left right = some m) :
    m.entries = left.entries ++ right.entries.filter (fun p => !(left.has p.fst)) := by
  unfold BindingsFactory.merge at hm
  by_cases hc : BindingsFactory.mergeCompatible left right = true
  · rw [if_pos hc] at hm
    cases hm
    rfl
  · rw [if_neg hc] at hm
    cases hm

theorem BindingsFactory.merge_get {left right : Bindings} {m : Bindings}
    (hm : BindingsFactory.merge left right = some m) (v : VariableName) :
    m.get v = (left.get v).or (right.get v) := by
  have he := BindingsFactory.merge_entries hm
  unfold Bindings.get
  rw [he, List.find?_append]
  cases hl : left.entries.find? (fun p => p.fst == v) with
  | some p =>
    simp [Bindings.get, hl]
  | none =>
    have hhas : left.has v = false := by
      unfold Bindings.has Bindings.get
      rw [hl]
      rfl
    rw [find?_filter_of_imp _ _ _ (fun x hx => ?_)]
    · simp [Bindings.get, hl]
    · have : x.fst = v := beq_iff_eq.mp hx
      rw [this, hhas]
      rfl

theorem addBinding_lookup_self {bs bs₂ : List (VariableName × Term)}
    {n : VariableName} {t : Term} (h : addBinding bs n t = some bs₂) :
    (bs₂.find? (fun p => p.fst == n)).map Prod.snd = some t := by
  unfold addBinding at h
  split at h
  · rename_i p hfind
    split at h
    · rename_i hpt
      cases h
      rw [hfind]
      simp [beq_iff_eq.mp hpt]
    · cases h
  · rename_i hfind
    cases h
    rw [List.find?_cons]
    simp

theorem addBinding_preserves {bs bs₂ : List (VariableName × Term)}
    {n : VariableName} {t : Term} (h : addBinding bs n t = some bs₂)
    {m : VariableName} {u : Term}
    (hm : (bs.find? (fun p => p.fst == m)).map Prod.snd = some u) :
    (bs₂.find? (fun p => p.fst == m)).map Prod.snd = some u := by
  unfold addBinding at h
  split at h
  · rename_i p hfind
    split at h
    · cases h
      exact hm
    · cases h
  · rename_i hfind
    cases h
    cases hn : (n == m) with
    | true =>
      exfalso
      rw [beq_iff_eq.mp hn] at hfind
      rw [hfind] at hm
      cases hm
    | false =>
      rw [List.find?_cons]
      simp only [hn]
      exact hm

theorem collect_lookup {L : List (Option Term × Term)}
    {bs : List (VariableName × Term)}
    (h : collectVarBindings L = some bs) :
    ∀ (n : VariableName) (t : Term), (some (Term.variable n), t) ∈ L →
      (bs.find? (fun p => p.fst == n)).map Prod.snd = some t := by
  induction L generalizing bs with
  | nil =>
    intro n t hmem
    cases hmem
  | cons head rest ih =>
    obtain ⟨pat, u⟩ := head
    intro n t hmem
    rcases List.mem_cons.mp hmem with heq | hmem₂
    · have h1 : pat = some (Term.variable n) := congrArg Prod.fst heq.symm
      have h2 : u = t := congrArg Prod.snd heq.symm
      subst h1
      subst h2
      have h₃ : (collectVarBindings rest).bind (fun bs => addBinding bs n u)
          = some bs := h
      obtain ⟨bs₂, _, hadd⟩ := Option.bind_eq_some.mp h₃
      exact addBinding_lookup_self hadd
    · rcases pat with _ | tm
      · exact ih h n t hmem₂
      · rcases tm with iri | lb | ⟨va, dt, lg⟩ | n₂ | _
        · exact ih h n t hmem₂
        · exact ih h n t hmem₂
        · exact ih h n t hmem₂
        · have h₃ : (collectVarBindings rest).bind (fun bs => addBinding bs n₂ u)
              = some bs := h
          obtain ⟨bs₂, hrest, hadd⟩ := Option.bind_eq_some.mp h₃
          exact addBinding_preserves hadd (ih hrest n t hmem₂)
        · exact ih h n t hmem₂

theorem mem_execute_none_iff (src : FilterableSource) (s p o g : Option Term)
    (q : Quad) :
    q ∈ (src.matchExpression s p o g none {}).execute.items ↔
      q ∈ src.quads ∧ quadMatchesPattern s p o g q = true := by
  simp [FilterableSource.matchExpression, FilterableResult.execute,
    FilterableResult.isSupported, FilterableResult.matchedQuads,
    List.mem_filter]

theorem collect_append_none (L : List (Option Term × Term)) (t : Term) :
    collectVarBindings (L ++ [(none, t)]) = collectVarBindings L := by
  induction L with
  | nil => rfl
  | cons head rest ih =>
    obtain ⟨pat, u⟩ := head
    rcases pat with _ | tm
    · exact ih
    · rcases tm with iri | lb | ⟨va, dt, lg⟩ | n | _
      · exact ih
      · exact ih
      · exact ih
      · show (collectVarBindings (rest ++ [(none, t)])).bind
            (fun bs => addBinding bs n u)
          = (collectVarBindings rest).bind (fun bs => addBinding bs n u)
        rw [ih]
      · exact ih

theorem quadMatches_graph_none (s p o : Option Term) (q : Quad) (g₂ : Term) :
    quadMatchesPattern s p o none { q with graph := g₂ } =
      quadMatchesPattern s p o none q := by
  show (termMatches s q.subject && termMatches p q.predicate &&
      termMatches o q.object && true &&
      (collectVarBindings
        ([(s, q.subject), (p, q.predicate), (o, q.object)]
          ++ [(none, g₂)])).isSome)
    = (termMatches s q.subject && termMatches p q.predicate &&
      termMatches o q.object && true &&
      (collectVarBindings
        ([(s, q.subject), (p, q.predicate), (o, q.object)]
          ++ [(none, q.graph)])).isSome)
  rw [collect_append_none, collect_append_none]

theorem BindingsFactory.merge_isSome_of_compatible {left right : Bindings}
    (hc : BindingsFactory.mergeCompatible left right = true) :
    ∃ m, BindingsFactory.merge left right = some m := by
  unfold BindingsFactory.merge
  rw [if_pos hc]
  exact ⟨_, rfl⟩

theorem exXtoA_exYtoB_agree :
    ∀ (v : VariableName) (t₁ t₂ : Term),
      exXtoA.get v = some t₁ → exYtoB.get v = some t₂ → t₁ = t₂ := by
  intro v t₁ t₂ h₁ h₂
  rw [Bindings.get_eq_some_iff] at h₁ h₂
  simp only [exXtoA, exYtoB, List.mem_singleton, Prod.mk.injEq] at h₁ h₂
  rw [h₁.1] at h₂
  exact absurd h₂.1 (by decide)

/-!
The claims.
-/

/-- C1: for every pair of Bindings left and right, if some variable is
bound in both operands to terms that are not structurally equal then
`merge(left, right)` returns the explicit "no unifier" absence signal
(undefined, modelled as `none`) rather than throwing; and whenever all
shared variables agree it returns a Bindings whose key set is exactly the
union of the two key sets. -/
theorem merge_no_unifier_or_key_union (left right : Bindings) :
    (∀ (v : VariableName) (t₁ t₂ : Term),
      left.get v = some t₁ → right.get v = some t₂ → t₁ ≠ t₂ →
        BindingsFactory.merge left right = none) ∧
    ((∀ (v : VariableName) (t₁ t₂ : Term),
        left.get v = some t₁ → right.get v = some t₂ → t₁ = t₂) →
      ∃ m, BindingsFactory.merge left right = some m ∧
        ∀ v : VariableName,
          (m.get v).isSome = ((left.get v).isSome || (right.get v).isSome)) := by
  constructor
  · intro v t₁ t₂ h₁ h₂ hne
    exact BindingsFactory.merge_eq_none_of_conflict h₁ h₂ hne
  · intro hagree
    obtain ⟨m, hm⟩ := BindingsFactory.merge_isSome_of_compatible
      (BindingsFactory.mergeCompatible_of_agree hagree)
    refine ⟨m, hm, fun v => ?_⟩
    rw [BindingsFactory.merge_get hm v, Option.isSome_or]

/-- C1 witness: merging x bound to the IRI a with x bound to the IRI b
yields the absence signal; merging x bound to a with y bound to b
succeeds. -/
theorem merge_no_unifier_or_key_union_witness :
    BindingsFactory.merge exXtoA exXtoB = none ∧
    (BindingsFactory.merge exXtoA exYtoB).isSome = true := by
  constructor
  · exact (merge_no_unifier_or_key_union exXtoA exXtoB).1 "x"
      (Term.namedNode "a") (Term.namedNode "b") (by decide) (by decide)
      (by decide)
  · obtain ⟨m, hm, _⟩ :=
      (merge_no_unifier_or_key_union exXtoA exYtoB).2 exXtoA_exYtoB_agree
    rw [hm]
    rfl

/-- C5: for every Bindings value and every variable not bound in it, `get`
returns the explicit absent signal (undefined, modelled as `none`), never
a default or arbitrary term; and for every bound variable it returns the
bound term. -/
theorem get_explicit_absence (b : Bindings) (v : VariableName) :
    ((∀ t : Term, (v, t) ∉ b.entries) → b.get v = none) ∧
    (∀ t : Term, (v, t) ∈ b.entries → b.get v = some t) := by
  constructor
  · intro h
    exact (b.get_eq_none_iff v).mpr h
  · intro t hmem
    exact (b.get_eq_some_iff v t).mpr hmem

/-- C5 witness: in the binding of x to the IRI a, `get` of y is the absent
signal and `get` of x is the bound term. -/
theorem get_explicit_absence_witness :
    exXtoA.get "y" = none ∧ exXtoA.get "x" = some (Term.namedNode "a") := by
  constructor
  · exact (get_explicit_absence exXtoA "y").1 (by intro t; simp [exXtoA])
  · exact (get_explicit_absence exXtoA "x").2 (Term.namedNode "a")
      (by simp [exXtoA])

/-- C7: for all Bindings A and B binding no variable to structurally
different terms, `merge(A, B)` and `merge(B, A)` both succeed and produce
equal binding sets: the same variable-to-term mapping. -/
theorem merge_commutative (A B : Bindings)
    (h : ∀ (v : VariableName) (t₁ t₂ : Term),
      A.get v = some t₁ → B.get v = some t₂ → t₁ = t₂) :
    ∃ m₁ m₂, BindingsFactory.merge A B = some m₁ ∧
      BindingsFactory.merge B A = some m₂ ∧
      ∀ v : VariableName, m₁.get v = m₂.get v := by
  obtain ⟨m₁, hm₁⟩ := BindingsFactory.merge_isSome_of_compatible
    (BindingsFactory.mergeCompatible_of_agree h)
  obtain ⟨m₂, hm₂⟩ := BindingsFactory.merge_isSome_of_compatible
    (BindingsFactory.mergeCompatible_of_agree
      (fun v t₁ t₂ h₁ h₂ => (h v t₂ t₁ h₂ h₁).symm))
  refine ⟨m₁, m₂, hm₁, hm₂, fun v => ?_⟩
  rw [BindingsFactory.merge_get hm₁ v, BindingsFactory.merge_get hm₂ v]
  cases hA : A.get v with
  | some t =>
    cases hB : B.get v with
    | some t₂ =>
      have ht := h v t t₂ hA hB
      subst ht
      rfl
    | none => rfl
  | none =>
    cases hB : B.get v with
    | some t₂ => rfl
    | none => rfl

/-- C7 witness: the two merges of x bound to a with y bound to b both
succeed. -/
theorem merge_commutative_witness :
    (BindingsFactory.merge exXtoA exYtoB).isSome = true ∧
    (BindingsFactory.merge exYtoB exXtoA).isSome = true := by
  obtain ⟨m₁, m₂, hm₁, hm₂, _⟩ :=
    merge_commutative exXtoA exYtoB exXtoA_exYtoB_agree
  rw [hm₁, hm₂]
  exact ⟨rfl, rfl⟩

/-- C10: every Bindings value carries the constant discriminator type =
"bindings", and every BindingsFactory operation returns a value satisfying
the discriminator invariant. -/
theorem bindings_type_discriminator :
    (∀ b : Bindings, b.type = "bindings") ∧
    (∀ entries, (BindingsFactory.bindings entries).type = "bindings") ∧
    (∀ b fn, (BindingsFactory.filter b fn).type = "bindings") ∧
    (∀ b fn, (BindingsFactory.map b fn).type = "bindings") ∧
    (∀ l r m, BindingsFactory.merge l r = some m → m.type = "bindings") ∧
    (∀ f l r, (BindingsFactory.mergeWith f l r).type = "bindings") ∧
    (∀ b k v, (BindingsFactory.set b k v).type = "bindings") ∧
    (∀ b k, (BindingsFactory.delete b k).type = "bindings") := by
  refine ⟨fun b => b.htype, fun _ => rfl, fun _ _ => rfl, fun _ _ => rfl,
    ?_, fun _ _ _ => rfl, fun _ _ _ => rfl, fun _ _ => rfl⟩
  intro l r m hm
  unfold BindingsFactory.merge at hm
  split at hm
  · cases hm
    rfl
  · cases hm

/-- C10 witness: the factory and a successful merge yield values carrying
the "bindings" tag. -/
theorem bindings_type_discriminator_witness :
    (BindingsFactory.bindings [("x", Term.namedNode "a")]).type = "bindings" ∧
    exXtoAMerged.type = "bindings" := by
  constructor
  · exact bindings_type_discriminator.2.1 [("x", Term.namedNode "a")]
  · exact bindings_type_discriminator.2.2.2.2.1 exXtoA exXtoA exXtoAMerged rfl

/-- C2: for every FilterableResult, if isSupported resolves to false then
execute yields a stream that emits an error before delivering any data
item, and metadata rejects for every choice of metadata options. -/
theorem unsupported_probe (r : FilterableResult)
    (h : r.isSupported = false) :
    r.execute.items = [] ∧ r.execute.error.isSome = true ∧
    ∀ opts : FilterableResultMetadataOptions,
      ∃ e, r.metadata opts = Except.error e := by
  refine ⟨?_, ?_, ?_⟩
  · simp [FilterableResult.execute, h]
  · simp [FilterableResult.execute, h]
  · intro opts
    exact ⟨"unsupported expression", by simp [FilterableResult.metadata, h]⟩

/-- C2 witness: a match call whose expression uses the unsupported operator
"regex" delivers no item, errors its stream, and has rejecting metadata. -/
theorem unsupported_probe_witness :
    exUnsupportedResult.isSupported = false ∧
    exUnsupportedResult.execute.items = [] ∧
    exUnsupportedResult.execute.error.isSome = true ∧
    ∃ e, exUnsupportedResult.metadata {} = Except.error e := by
  have h : exUnsupportedResult.isSupported = false := by decide
  have hp := unsupported_probe exUnsupportedResult h
  exact ⟨h, hp.1, hp.2.1, hp.2.2 {}⟩

/-- C3: matchExpression with graph undefined matches quads in all graphs
(matching is invariant under the graph component of the quad), while
matchExpression with an explicit DefaultGraph term as the graph argument
returns only quads whose graph component is the default graph. -/
theorem union_graph_default (src : FilterableSource) (s p o : Option Term) :
    (∀ q : Quad,
      q ∈ (src.matchExpression s p o none none {}).execute.items ↔
        q ∈ src.quads ∧ quadMatchesPattern s p o none q = true) ∧
    (∀ (q : Quad) (g₂ : Term),
      quadMatchesPattern s p o none { q with graph := g₂ } =
        quadMatchesPattern s p o none q) ∧
    (∀ q : Quad,
      q ∈ (src.matchExpression s p o (some Term.defaultGraph) none
          {}).execute.items →
        q.graph = Term.defaultGraph) := by
  refine ⟨fun q => mem_execute_none_iff src s p o none q,
    fun q g₂ => quadMatches_graph_none s p o q g₂, fun q hq => ?_⟩
  have h :=
    ((mem_execute_none_iff src s p o (some Term.defaultGraph) q).mp hq).2
  unfold quadMatchesPattern at h
  have hg : termMatches (some Term.defaultGraph) q.graph = true :=
    (Bool.and_eq_true_iff.mp (Bool.and_eq_true_iff.mp h).1).2
  have hg₂ : (Term.defaultGraph == q.graph) = true := hg
  exact (beq_iff_eq.mp hg₂).symm

/-- C3 witness: on the example source, the default-graph-restricted match
contains the default-graph quad, whose graph component the theorem shows
to be the default graph. -/
theorem union_graph_default_witness :
    exQuadDefault ∈ (exSource.matchExpression none none none
      (some Term.defaultGraph) none {}).execute.items ∧
    exQuadDefault.graph = Term.defaultGraph := by
  have hmem : exQuadDefault ∈ (exSource.matchExpression none none none
      (some Term.defaultGraph) none {}).execute.items := by decide
  exact ⟨hmem,
    (union_graph_default exSource none none none).2.2 exQuadDefault hmem⟩

/-- C4: requesting exact cardinality from a source that can only estimate
rejects rather than resolving with an estimate; and whenever metadata
resolves after a request for a given cardinality type, the returned
cardinality carries exactly the requested type. -/
theorem metadata_cardinality_type (r : FilterableResult) :
    (r.source.exactCardinalitySupported = false →
      ∃ e, r.metadata { cardinality := some CardinalityType.exact }
        = Except.error e) ∧
    (∀ (ct : CardinalityType) (md : FilterableResultMetadata),
      r.metadata { cardinality := some ct } = Except.ok md →
        ∃ c, md.cardinality = some c ∧ c.type = ct) := by
  constructor
  · intro hex
    by_cases hsup : r.isSupported = true
    · exact ⟨"exact cardinality is not supported by this source",
        by simp [FilterableResult.metadata, hsup, hex]⟩
    · have hsupf : r.isSupported = false := by
        cases hb : r.isSupported
        · rfl
        · exact absurd hb hsup
      exact ⟨"unsupported expression",
        by simp [FilterableResult.metadata, hsupf]⟩
  · intro ct md hok
    unfold FilterableResult.metadata at hok
    by_cases hsup : r.isSupported = true
    · rw [if_pos hsup] at hok
      cases ct with
      | exact =>
        have hok₂ : (if r.source.exactCardinalitySupported then
            Except.ok
              { cardinality :=
                  some ⟨CardinalityType.exact, r.matchedQuads.length⟩
                availableOrders := none }
          else
            (Except.error "exact cardinality is not supported by this source"
              : Except String FilterableResultMetadata))
            = Except.ok md := hok
        by_cases hec : r.source.exactCardinalitySupported = true
        · rw [if_pos hec] at hok₂
          cases hok₂
          exact ⟨_, rfl, rfl⟩
        · rw [if_neg hec] at hok₂
          cases hok₂
      | estimate =>
        have hok₂ : (Except.ok
            { cardinality :=
                some ⟨CardinalityType.estimate, r.source.cardinalityEstimate⟩
              availableOrders := none }
            : Except String FilterableResultMetadata)
            = Except.ok md := hok
        cases hok₂
        exact ⟨_, rfl, rfl⟩
    · rw [if_neg hsup] at hok
      cases hok

/-- C4 witness: the example source can only estimate, so the exact request
on an unconstrained match rejects, while an estimate request resolves with
an estimate-tagged cardinality. -/
theorem metadata_cardinality_type_witness :
    (∃ e, (exSource.matchExpression none none none none none {}).metadata
      { cardinality := some CardinalityType.exact } = Except.error e) ∧
    (∃ c, (FilterableResultMetadata.mk
        (some ⟨CardinalityType.estimate, 3⟩) none).cardinality = some c ∧
      c.type = CardinalityType.estimate) := by
  constructor
  · exact (metadata_cardinality_type
      (exSource.matchExpression none none none none none {})).1 rfl
  · exact (metadata_cardinality_type
      (exSource.matchExpression none none none none none {})).2
      CardinalityType.estimate
      (FilterableResultMetadata.mk (some ⟨CardinalityType.estimate, 3⟩) none)
      rfl

/-- C6: every quad delivered by a match whose pattern repeats a variable
name in several positions has structurally equal terms in those positions;
in particular a pattern binding the same variable in subject and object
position only matches quads whose subject equals their object. -/
theorem shared_variable_self_join :
    (∀ (src : FilterableSource) (s p o g : Option Term) (q : Quad)
        (n : VariableName) (t₁ t₂ : Term),
      q ∈ (src.matchExpression s p o g none {}).execute.items →
      (some (Term.variable n), t₁) ∈ patternTerms s p o g q →
      (some (Term.variable n), t₂) ∈ patternTerms s p o g q →
        t₁ = t₂) ∧
    (∀ (src : FilterableSource) (x : VariableName) (knows : Term) (q : Quad),
      q ∈ (src.matchExpression (some (Term.variable x)) (some knows)
          (some (Term.variable x)) none none {}).execute.items →
        q.subject = q.object) := by
  have main : ∀ (src : FilterableSource) (s p o g : Option Term) (q : Quad)
      (n : VariableName) (t₁ t₂ : Term),
      q ∈ (src.matchExpression s p o g none {}).execute.items →
      (some (Term.variable n), t₁) ∈ patternTerms s p o g q →
      (some (Term.variable n), t₂) ∈ patternTerms s p o g q →
        t₁ = t₂ := by
    intro src s p o g q n t₁ t₂ hq h₁ h₂
    have hmatch := ((mem_execute_none_iff src s p o g q).mp hq).2
    have hcol : (collectVarBindings (patternTerms s p o g q)).isSome = true :=
      (Bool.and_eq_true_iff.mp hmatch).2
    obtain ⟨bs, hbs⟩ := Option.isSome_iff_exists.mp hcol
    have e₁ := collect_lookup hbs n t₁ h₁
    have e₂ := collect_lookup hbs n t₂ h₂
    rw [e₁] at e₂
    exact Option.some_inj.mp e₂
  refine ⟨main, fun src x knows q hq => ?_⟩
  exact main src (some (Term.variable x)) (some knows)
    (some (Term.variable x)) none q x q.subject q.object hq
    (by simp [patternTerms]) (by simp [patternTerms])

/-- C6 witness: on the example source, the pattern repeating the variable
x in subject and object position delivers the self-loop quad, whose
subject the theorem shows equal to its object. -/
theorem shared_variable_self_join_witness :
    exQuadSelf ∈ (exSource.matchExpression (some (Term.variable "x"))
      (some (Term.namedNode "knows")) (some (Term.variable "x")) none none
      {}).execute.items ∧
    exQuadSelf.subject = exQuadSelf.object := by
  have hmem : exQuadSelf ∈ (exSource.matchExpression (some (Term.variable "x"))
      (some (Term.namedNode "knows")) (some (Term.variable "x")) none none
      {}).execute.items := by decide
  exact ⟨hmem, shared_variable_self_join.2 exSource "x"
    (Term.namedNode "knows") exQuadSelf hmem⟩

/-- C9: all pattern parameters, the expression, and the options of
matchExpression are optional; the call with no arguments denotes the
unrestricted match, whose stream delivers every quad of the source across
all graphs, with no filter, no limit and no offset applied, and without
error. -/
theorem match_no_arguments_unrestricted (src : FilterableSource) :
    (src.matchExpression).execute.items = src.quads ∧
    (src.matchExpression).execute.error = none := by
  constructor
  · calc (src.matchExpression).execute.items
        = src.quads.filter (quadMatchesPattern none none none none) := rfl
      _ = src.quads := List.filter_eq_self.mpr (fun a _ => rfl)
  · rfl

/-- C8 counterexample: in the four-kind revision of the result interfaces,
a void result declares no metadata member at all, refuting the claim that
every result kind exposes the metadata method. -/
theorem queryable_result_void_no_metadata :
    QueryableResult.metadataMethod (QueryableResult.void exVoidResult) = none ∧
    (QueryableResult.void exVoidResult).type = "void" :=
  ⟨rfl, rfl⟩

/-- C8 (amended): every result kind carries its discriminator tag (one of
the four kinds) and its kind-specific execute member, but only the
bindings and quads kinds expose the metadata method; the boolean and void
interfaces declare only the tag and execute. -/
theorem queryable_result_base_contract (r : QueryableResult) :
    (r.type = "bindings" ∨ r.type = "quads" ∨ r.type = "boolean" ∨
      r.type = "void") ∧
    ((r.metadataMethod).isSome = true ↔
      (r.type = "bindings" ∨ r.type = "quads")) := by
  cases r with
  | bindings rb => simp [QueryableResult.type, QueryableResult.metadataMethod,
      rb.htype]
  | quads rq => simp [QueryableResult.type, QueryableResult.metadataMethod,
      rq.htype]
  | boolean rb => simp [QueryableResult.type, QueryableResult.metadataMethod,
      rb.htype]
  | void rv => simp [QueryableResult.type, QueryableResult.metadataMethod,
      rv.htype]

end RDFJS
